import Mathlib

/-!
The Elasticsearch batcher of `outputs/elasticsearch_batcher.go`.

A shallow embedding of `ElasticsearchBatcher` and its three methods `Push`,
`flush` and `scheduleFlushInterval`, followed by a transition system in which
the goroutines spawned by `Push` are pending tasks that run one at a time.

Modelling conventions.

* Go strings and byte slices are Lean `String`s.
* `time.Time` values are natural numbers (`Time`); `ts.Equal(u)` is `ts = u`.
  Every call of `time.Now()` is an input of the function that makes it.
* `json.Marshal` is a parameter `marshal : α → Except GoError String`.
* `pendingCount` and `batchSize` are Go `int`s, embedded as `Int` without
  wrap-around: every increment of `pendingCount` comes with more than twenty
  bytes written to `pending`, whose length is itself an `int`, so the counter
  cannot reach the largest `int`.
* The mutex makes `Push` and `flush` atomic.  A timer's wake-up is two steps,
  as in the body of `scheduleFlushInterval`: the test of the timestamp against
  `lastScheduledFlushTime`, made without the mutex, and the call of `flush`,
  which takes the mutex; other goroutines can run in between.
* The line `fmt.Println("FLUSH")` of `flush` writes to standard output only and
  is left out.
-/

namespace Outputs

/-! ## Errors -/

/-- Go `error` values: `errors.New msg`, and `fmt.Errorf` with a `%w` verb,
which wraps an inner error under a new message. -/
inductive GoError where
  | sentinel (msg : String)
  | wrap (msg : String) (inner : GoError)
  deriving DecidableEq, Repr

/-- The message of an error (`err.Error()`). -/
def GoError.msg : GoError → String
  | .sentinel m => m
  | .wrap m _ => m

/-- Go's `errors.Is err target`: `target` occurs on the unwrap chain of `err`. -/
def errorsIs : GoError → GoError → Bool
  | .sentinel m, target => decide (GoError.sentinel m = target)
  | .wrap m inner, target => decide (GoError.wrap m inner = target) || errorsIs inner target

/-- The package variable `ErrIndexName = errors.New("invalid index name")`. -/
def ErrIndexName : GoError := .sentinel "invalid index name"

/-! ## The batcher -/

/-- A `time.Time` value. -/
abbrev Time := Nat

/-- The constant `defaultBatchSize`. -/
def defaultBatchSize : Int := 1000

/-- The constant `defaultFlushInterval` (one second, in nanoseconds). -/
def defaultFlushInterval : Nat := 1000000000

/-- The struct `ElasticsearchBatcher` without its mutex. `callback` is `true`
when the field holds a function and `false` when it is `nil`; what the function
is called with is part of the result of `flush`. -/
structure ElasticsearchBatcher where
  batchSize : Int
  flushInterval : Nat
  callback : Bool
  pending : String
  pendingCount : Int
  lastScheduledFlushTime : Time
  deriving DecidableEq, Repr

/-- The constructor `NewElasticseachBatcher`: default size and interval, no
callback, empty buffer, zero count, zero time. -/
def NewElasticseachBatcher : ElasticsearchBatcher :=
  { batchSize := defaultBatchSize
    flushInterval := defaultFlushInterval
    callback := false
    pending := ""
    pendingCount := 0
    lastScheduledFlushTime := 0 }

/-- The method `appendPending`: reject an index that contains a double quote,
marshal the payload, then write the header pieces, the index, the body and a
newline to `pending`. An error leaves the batcher as it was. -/
def appendPending {α : Type} (marshal : α → Except GoError String)
    (b : ElasticsearchBatcher) (index : String) (payload : α) :
    Except GoError ElasticsearchBatcher :=
  if '"' ∈ index.data then
    .error (.wrap (index ++ ": " ++ ErrIndexName.msg) ErrIndexName)
  else
    match marshal payload with
    | .error e => .error e
    | .ok body =>
      let p1 := b.pending ++ "\x7b\"create\":\x7b"
      let p2 := p1 ++ "\"_index\":\""
      let p3 := p2 ++ index
      let p4 := p3 ++ "\"\x7d\x7d\n"
      let p5 := p4 ++ body
      let p6 := p5.push '\n'
      .ok { b with pending := p6 }

/-- What a call of `Push` leaves behind: the batcher, the returned error
(`none` for `nil`), whether `go b.flush()` was spawned, and the timestamp of a
spawned `go b.scheduleFlushInterval(ts)`. -/
structure PushResult where
  b : ElasticsearchBatcher
  err : Option GoError
  goFlush : Bool
  goTimer : Option Time
  deriving DecidableEq, Repr

/-- The method `Push`. `nowSize` is what `time.Now()` returns in the branch
`pendingCount == batchSize` and `nowArm` what it returns in the branch
`pendingCount == 1`. -/
def Push {α : Type} (marshal : α → Except GoError String)
    (b : ElasticsearchBatcher) (index : String) (payload : α)
    (nowSize nowArm : Time) : PushResult :=
  match appendPending marshal b index payload with
  | .error e => { b := b, err := some e, goFlush := false, goTimer := none }
  | .ok b1 =>
    let b2 := { b1 with pendingCount := b1.pendingCount + 1 }
    let sized := decide (b2.pendingCount = b2.batchSize)
    let b3 := if sized then { b2 with lastScheduledFlushTime := nowSize } else b2
    let first := decide (b3.pendingCount = 1)
    let b4 := if first then { b3 with lastScheduledFlushTime := nowArm } else b3
    { b := b4, err := none, goFlush := sized
      goTimer := if first then some nowArm else none }

/-- What `flush` does, in program order: taking and releasing the mutex, the
detaching of the batch (count reset and buffer swap), and the call of the
callback. -/
inductive Event where
  | lock
  | unlock
  | detach
  | callback (payload : String)
  deriving DecidableEq, Repr

/-- The method `flush` with its trace: `b.mx.Lock()` first, the deferred
`b.mx.Unlock()` when the function returns, and in between the early return on
a zero count, or the count reset and buffer swap followed by the call of the
callback when it is not `nil`. -/
def flushTrace (b : ElasticsearchBatcher) : List Event × ElasticsearchBatcher :=
  if b.pendingCount = 0 then
    ([.lock, .unlock], b)
  else
    let payload := b.pending
    let b1 := { b with pendingCount := 0, pending := "" }
    if b.callback then
      ([.lock, .detach, .callback payload, .unlock], b1)
    else
      ([.lock, .detach, .unlock], b1)

/-- The payloads the callback is called with along a trace. -/
def callbackPayloads : List Event → List String
  | [] => []
  | .callback p :: es => p :: callbackPayloads es
  | _ :: es => callbackPayloads es

/-- Every detaching of the trace happens while the mutex is held and every
callback call while it is not held. -/
def callbackAfterUnlock (held : Bool) : List Event → Bool
  | [] => true
  | .lock :: es => callbackAfterUnlock true es
  | .unlock :: es => callbackAfterUnlock false es
  | .detach :: es => held && callbackAfterUnlock held es
  | .callback _ :: es => !held && callbackAfterUnlock held es

/-- The method `flush`: the batcher it leaves and the payloads handed to the
callback (none or one). -/
def flush (b : ElasticsearchBatcher) : ElasticsearchBatcher × List String :=
  ((flushTrace b).2, callbackPayloads (flushTrace b).1)

/-- The method `scheduleFlushInterval` from the moment the timer fires: flush
when the armed timestamp equals `lastScheduledFlushTime`, else do nothing. -/
def scheduleFlushInterval (b : ElasticsearchBatcher) (ts : Time) :
    ElasticsearchBatcher × List String :=
  if ts = b.lastScheduledFlushTime then flush b else (b, [])

/-! ## Framing -/

/-- The header line of a framing unit, without its newline. -/
def headerLine (index : String) : String :=
  "\x7b\"create\":\x7b\"_index\":\"" ++ index ++ "\"\x7d\x7d"

/-- A framing unit: the header line and the body, each followed by a newline. -/
def framingUnit (index body : String) : String :=
  headerLine index ++ "\n" ++ body ++ "\n"

/-- Split characters into newline-terminated lines; `cur` holds the current
line backwards. The result is `none` when text remains after the last
newline. -/
def terminatedLinesAux : List Char → List Char → Option (List String)
  | [], [] => some []
  | _ :: _, [] => none
  | cur, c :: cs =>
    if c = '\n' then
      (terminatedLinesAux [] cs).map (fun ls => String.mk cur.reverse :: ls)
    else
      terminatedLinesAux (c :: cur) cs

/-- The newline-terminated lines of a string, when it is a sequence of such
lines. -/
def terminatedLines (s : String) : Option (List String) :=
  terminatedLinesAux [] s.data

/-- A payload type for examples: a record that is its own JSON body. -/
def marshalText : String → Except GoError String := fun s => .ok s

/-- Concatenation of a list of strings, in order. -/
def concatAll : List String → String
  | [] => ""
  | s :: ss => s ++ concatAll ss

/-! ## The batcher with its goroutines -/

/-- A goroutine `scheduleFlushInterval(ts)` that has not called `flush` yet.
`tested` is `false` while it sleeps and `true` once it has found its timestamp
equal to `lastScheduledFlushTime` and is about to call `flush`. `batch` is a
ghost field: the number of batches drained before the timer was armed, which
identifies the batch the timer was armed for. -/
structure Timer where
  ts : Time
  batch : Nat
  tested : Bool
  deriving DecidableEq, Repr

/-- The batcher together with the goroutines it has spawned and a record of
what has happened: `flushTasks` counts the `go b.flush()` goroutines that have
not run yet, `timers` are the timer goroutines that are asleep or between
their test and their call of `flush`, `delivered` lists the
payloads handed to the callback in call order. The remaining fields are ghost
state: `accepted` lists the framing units of the calls of `Push` that returned
`nil`, `readings` the values `time.Now()` returned inside `Push`, and `drained`
counts the flushes that found a non-zero count. -/
structure System where
  b : ElasticsearchBatcher
  flushTasks : Nat
  timers : List Timer
  delivered : List String
  accepted : List String
  readings : List Time
  drained : Nat
  deriving DecidableEq, Repr

/-- A system around a fresh batcher whose `batchSize` and `callback` fields
have been set. -/
def newSystem (batchSize : Int) (callback : Bool) : System :=
  { b := { NewElasticseachBatcher with batchSize := batchSize, callback := callback }
    flushTasks := 0
    timers := []
    delivered := []
    accepted := []
    readings := []
    drained := 0 }

/-- The steps of the system: a call of `Push` with the clock readings it will
get, the run of a pending `go b.flush()`, the test the sleeping timer at
position `i` makes when it wakes, and the call of `flush` by the timer at
position `i` that has passed its test. -/
inductive Action (α : Type) where
  | push (index : String) (payload : α) (nowSize nowArm : Time)
  | flushTask
  | timerTest (i : Nat)
  | timerFlush (i : Nat)
  deriving Repr

/-- The ghost count of drained batches after a flush took the batcher from
`before` to `after`: a flush changes the count exactly when it drains. -/
def drainedAfter (drained : Nat) (before after : ElasticsearchBatcher) : Nat :=
  if after.pendingCount = before.pendingCount then drained else drained + 1

/-- One step of the system; `none` when the task to run does not exist or is
not at the point of the step. A timer that fails its test ends; one that
passes stays in the list, marked, until it calls `flush`. -/
def step {α : Type} (marshal : α → Except GoError String) (s : System) :
    Action α → Option System
  | .push index payload nowSize nowArm =>
    let r := Push marshal s.b index payload nowSize nowArm
    some { s with
      b := r.b
      flushTasks := if r.goFlush then s.flushTasks + 1 else s.flushTasks
      timers :=
        match r.goTimer with
        | some ts => s.timers ++ [{ ts := ts, batch := s.drained, tested := false }]
        | none => s.timers
      accepted :=
        match r.err, marshal payload with
        | none, .ok body => s.accepted ++ [framingUnit index body]
        | _, _ => s.accepted
      readings :=
        s.readings ++ (if r.goFlush then [nowSize] else []) ++
          (match r.goTimer with
           | some ts => [ts]
           | none => []) }
  | .flushTask =>
    if s.flushTasks = 0 then none
    else
      let r := flush s.b
      some { s with
        b := r.1
        flushTasks := s.flushTasks - 1
        delivered := s.delivered ++ r.2
        drained := drainedAfter s.drained s.b r.1 }
  | .timerTest i =>
    match s.timers[i]? with
    | none => none
    | some t =>
      if t.tested then none
      else if t.ts = s.b.lastScheduledFlushTime then
        some { s with timers := s.timers.set i { t with tested := true } }
      else
        some { s with timers := s.timers.eraseIdx i }
  | .timerFlush i =>
    match s.timers[i]? with
    | none => none
    | some t =>
      if t.tested then
        let r := flush s.b
        some { s with
          b := r.1
          timers := s.timers.eraseIdx i
          delivered := s.delivered ++ r.2
          drained := drainedAfter s.drained s.b r.1 }
      else none

/-- Run a list of steps from a state. -/
def run {α : Type} (marshal : α → Except GoError String) :
    System → List (Action α) → Option System
  | s, [] => some s
  | s, a :: as => (step marshal s a).bind (fun s1 => run marshal s1 as)

/-- A record to push: routing key, payload, and the two clock readings the
call may take. -/
structure Record (α : Type) where
  index : String
  payload : α
  nowSize : Time
  nowArm : Time

/-- The push step for a record. -/
def Record.action {α : Type} (r : Record α) : Action α :=
  .push r.index r.payload r.nowSize r.nowArm

/-- A record that `Push` accepts: no double quote in the index, and the
payload marshals. -/
def Record.valid {α : Type} (marshal : α → Except GoError String) (r : Record α) : Bool :=
  decide ('"' ∉ r.index.data) && (marshal r.payload).toBool

/-- The framing unit of a record (empty when the payload does not marshal). -/
def Record.unit {α : Type} (marshal : α → Except GoError String) (r : Record α) : String :=
  match marshal r.payload with
  | .ok body => framingUnit r.index body
  | .error _ => ""

/-! ## Results of the steps, spelled out -/

/-- The batcher a drained flush leaves: zero count, fresh buffer. -/
def ElasticsearchBatcher.detached (b : ElasticsearchBatcher) : ElasticsearchBatcher :=
  { b with pendingCount := 0, pending := "" }

/-- The batcher an accepted call of `Push` leaves. -/
def ElasticsearchBatcher.pushed (b : ElasticsearchBatcher) (unit : String)
    (nowSize nowArm : Time) : ElasticsearchBatcher :=
  { b with
    pending := b.pending ++ unit
    pendingCount := b.pendingCount + 1
    lastScheduledFlushTime :=
      if b.pendingCount + 1 = 1 then nowArm
      else if b.pendingCount + 1 = b.batchSize then nowSize
      else b.lastScheduledFlushTime }

/-- The system an accepted push step leaves. -/
def System.pushed (s : System) (unit : String) (nowSize nowArm : Time) : System :=
  { s with
    b := s.b.pushed unit nowSize nowArm
    flushTasks :=
      if s.b.pendingCount + 1 = s.b.batchSize then s.flushTasks + 1 else s.flushTasks
    timers :=
      if s.b.pendingCount + 1 = 1 then s.timers ++ [{ ts := nowArm, batch := s.drained, tested := false }]
      else s.timers
    accepted := s.accepted ++ [unit]
    readings :=
      s.readings ++ (if s.b.pendingCount + 1 = s.b.batchSize then [nowSize] else []) ++
        (if s.b.pendingCount + 1 = 1 then [nowArm] else []) }

/-- The system after the records `rs` have been pushed to a fresh batcher
whose batch size exceeds their number. -/
def afterPushes {α : Type} (marshal : α → Except GoError String) (n : Int) (cb : Bool)
    (rs : List (Record α)) : System :=
  { b :=
      { batchSize := n
        flushInterval := defaultFlushInterval
        callback := cb
        pending := concatAll (rs.map (Record.unit marshal))
        pendingCount := rs.length
        lastScheduledFlushTime :=
          match rs with
          | [] => 0
          | r :: _ => r.nowArm }
    flushTasks := 0
    timers :=
      match rs with
      | [] => []
      | r :: _ => [{ ts := r.nowArm, batch := 0, tested := false }]
    delivered := []
    accepted := rs.map (Record.unit marshal)
    readings :=
      match rs with
      | [] => []
      | r :: _ => [r.nowArm]
    drained := 0 }

/-! ## Invariants of the system -/

/-- The invariant of delivery integrity: the callback is set, and what was
handed to it followed by the pending buffer is what was accepted. -/
def Integrity (s : System) : Prop :=
  s.b.callback = true ∧
    concatAll s.delivered ++ s.b.pending = concatAll s.accepted

/-- The invariant behind the size bound: the batch size is `n`, the count is
not negative, and it is below `n` unless a flush task is pending. -/
def Bounded (n : Int) (s : System) : Prop :=
  s.b.batchSize = n ∧ 0 ≤ s.b.pendingCount ∧ (s.flushTasks = 0 → s.b.pendingCount < n)

/-- The invariant that a non-empty batch has something that will flush it: a
pending flush task, or a timer goroutine that has not called `flush` yet and
was armed with the current `lastScheduledFlushTime`. -/
def Covered (s : System) : Prop :=
  0 < s.b.pendingCount →
    0 < s.flushTasks ∨ ∃ t ∈ s.timers, t.ts = s.b.lastScheduledFlushTime

/-! ## A scenario -/

/-- The records `R1`, `R2`, `R3` of the scenario with batch size three. -/
def scenarioRecords : List (Record String) :=
  [{ index := "idx", payload := "R1", nowSize := 0, nowArm := 1 },
   { index := "idx", payload := "R2", nowSize := 10, nowArm := 11 },
   { index := "idx", payload := "R3", nowSize := 20, nowArm := 21 }]

/-- A run with batch size three: three pushes, one of them rejected for its
index, leave two units pending; the third accepted push spawns the flush task,
which delivers the three units; a fourth accepted push starts the next
batch. -/
def scenarioRun : List (Action String) :=
  [.push "idx" "R1" 0 1, .push "a\"b" "Rx" 5 6, .push "idx" "R2" 10 11,
   .push "idx" "R3" 20 21, .flushTask, .push "idx" "R4" 30 31]

/-- The state `scenarioRun` ends in: the first batch delivered, `R4` pending,
the timer of the first batch and the timer of the second both asleep. -/
def scenarioState : System :=
  { b :=
      { batchSize := 3
        flushInterval := defaultFlushInterval
        callback := true
        pending := framingUnit "idx" "R4"
        pendingCount := 1
        lastScheduledFlushTime := 31 }
    flushTasks := 0
    timers :=
      [{ ts := 1, batch := 0, tested := false }, { ts := 31, batch := 1, tested := false }]
    delivered := [framingUnit "idx" "R1" ++ framingUnit "idx" "R2" ++ framingUnit "idx" "R3"]
    accepted :=
      [framingUnit "idx" "R1", framingUnit "idx" "R2", framingUnit "idx" "R3",
       framingUnit "idx" "R4"]
    readings := [1, 20, 31]
    drained := 1 }

/-- The first record of the repository test: index `test`, a payload with the
body `{}`. -/
def testFirst : Record String :=
  { index := "test", payload := "\x7b\x7d", nowSize := 0, nowArm := 1 }

/-- Two more records of the repository test, pushed 100 and 200 milliseconds
later. -/
def testRest : List (Record String) :=
  [{ index := "test", payload := "\x7b\x7d", nowSize := 100, nowArm := 101 },
   { index := "test", payload := "\x7b\x7d", nowSize := 200, nowArm := 201 }]

/-! ## `appendPending` and `Push` -/

theorem framingUnit_eq (index body : String) :
    framingUnit index body =
      "\x7b\"create\":\x7b" ++ "\"_index\":\"" ++ index ++ "\"\x7d\x7d\n" ++ body ++ "\n" := by
  apply String.ext
  simp [framingUnit, headerLine, String.data_append]

theorem push_newline (s : String) : s.push '\n' = s ++ "\n" := by
  apply String.ext
  simp [String.data_append]

theorem appendPending_ok {α : Type} (marshal : α → Except GoError String)
    (b : ElasticsearchBatcher) (index : String) (payload : α) (body : String)
    (hq : '"' ∉ index.data) (hm : marshal payload = .ok body) :
    appendPending marshal b index payload =
      .ok { b with pending := b.pending ++ framingUnit index body } := by
  simp only [appendPending, if_neg hq, hm, push_newline, framingUnit_eq, String.append_assoc]

theorem appendPending_quote {α : Type} (marshal : α → Except GoError String)
    (b : ElasticsearchBatcher) (index : String) (payload : α)
    (hq : '"' ∈ index.data) :
    appendPending marshal b index payload =
      .error (.wrap (index ++ ": " ++ ErrIndexName.msg) ErrIndexName) := by
  simp only [appendPending, if_pos hq]

theorem appendPending_marshal_error {α : Type} (marshal : α → Except GoError String)
    (b : ElasticsearchBatcher) (index : String) (payload : α) (e : GoError)
    (hq : '"' ∉ index.data) (hm : marshal payload = .error e) :
    appendPending marshal b index payload = .error e := by
  simp only [appendPending, if_neg hq, hm]

/-- A call of `Push` that is accepted, spelled out. -/
theorem Push_ok {α : Type} (marshal : α → Except GoError String)
    (b : ElasticsearchBatcher) (index : String) (payload : α) (body : String)
    (nowSize nowArm : Time)
    (hq : '"' ∉ index.data) (hm : marshal payload = .ok body) :
    Push marshal b index payload nowSize nowArm =
      { b :=
          { b with
            pending := b.pending ++ framingUnit index body
            pendingCount := b.pendingCount + 1
            lastScheduledFlushTime :=
              if b.pendingCount + 1 = 1 then nowArm
              else if b.pendingCount + 1 = b.batchSize then nowSize
              else b.lastScheduledFlushTime }
        err := none
        goFlush := decide (b.pendingCount + 1 = b.batchSize)
        goTimer := if b.pendingCount + 1 = 1 then some nowArm else none } := by
  simp only [Push, appendPending_ok marshal b index payload body hq hm]
  by_cases h1 : b.pendingCount + 1 = b.batchSize
  · by_cases h2 : b.pendingCount + 1 = 1
    · simp only [decide_eq_true h1, decide_eq_true h2, if_true, if_pos h2]
    · simp only [decide_eq_true h1, decide_eq_false h2, if_true, if_false, if_neg h2, if_pos h1,
        Bool.false_eq_true]
  · by_cases h2 : b.pendingCount + 1 = 1
    · simp only [decide_eq_false h1, decide_eq_true h2, if_true, if_false, if_pos h2,
        Bool.false_eq_true]
    · simp only [decide_eq_false h1, decide_eq_false h2, if_false, if_neg h2, if_neg h1,
        Bool.false_eq_true]

/-- A call of `Push` returns an error only when `appendPending` does, and then
the result holds the batcher it was called on and spawns nothing. -/
theorem Push_err {α : Type} (marshal : α → Except GoError String)
    (b : ElasticsearchBatcher) (index : String) (payload : α)
    (nowSize nowArm : Time) (e : GoError)
    (h : (Push marshal b index payload nowSize nowArm).err = some e) :
    Push marshal b index payload nowSize nowArm =
      { b := b, err := some e, goFlush := false, goTimer := none } := by
  unfold Push at h ⊢
  cases ha : appendPending marshal b index payload with
  | error e1 =>
    rw [ha] at h
    simp only [Option.some.injEq] at h
    simp [h]
  | ok b1 =>
    rw [ha] at h
    simp at h

/-- C1. For every batcher state, every index without a double quote and every
payload that marshals to `body`, `Push` returns no error, raises `pendingCount`
by exactly one, and leaves `pending` equal to its previous content followed by
the header line for the index, a newline, the body and a newline. -/
theorem Push_appends_framing_unit {α : Type} (marshal : α → Except GoError String)
    (b : ElasticsearchBatcher) (index : String) (payload : α) (body : String)
    (nowSize nowArm : Time)
    (hq : '"' ∉ index.data) (hm : marshal payload = .ok body) :
    (Push marshal b index payload nowSize nowArm).err = none ∧
    (Push marshal b index payload nowSize nowArm).b.pendingCount = b.pendingCount + 1 ∧
    (Push marshal b index payload nowSize nowArm).b.pending =
      b.pending ++
        ("\x7b\"create\":\x7b\"_index\":\"" ++ index ++ "\"\x7d\x7d" ++ "\n" ++ body ++ "\n") := by
  rw [Push_ok marshal b index payload body nowSize nowArm hq hm]
  exact ⟨rfl, rfl, rfl⟩

/-- C1 at index `test` and body `{"a":1}`, on a batcher that already holds
`old`: the buffer becomes `old` followed by the two lines of the claim. -/
theorem Push_appends_framing_unit_witness :
    ('"' ∉ "test".data ∧ marshalText "\x7b\"a\":1\x7d" = .ok "\x7b\"a\":1\x7d") ∧
    ((Push marshalText { NewElasticseachBatcher with pending := "old" }
        "test" "\x7b\"a\":1\x7d" 5 6).err = none ∧
     (Push marshalText { NewElasticseachBatcher with pending := "old" }
        "test" "\x7b\"a\":1\x7d" 5 6).b.pendingCount = 0 + 1 ∧
     (Push marshalText { NewElasticseachBatcher with pending := "old" }
        "test" "\x7b\"a\":1\x7d" 5 6).b.pending =
      "old" ++ ("\x7b\"create\":\x7b\"_index\":\"" ++ "test" ++ "\"\x7d\x7d" ++ "\n" ++
        "\x7b\"a\":1\x7d" ++ "\n")) ∧
    "\x7b\"create\":\x7b\"_index\":\"" ++ "test" ++ "\"\x7d\x7d" ++ "\n" ++ "\x7b\"a\":1\x7d" ++ "\n" =
      "\x7b\"create\":\x7b\"_index\":\"test\"\x7d\x7d\n\x7b\"a\":1\x7d\n" :=
  ⟨⟨by decide, rfl⟩,
   Push_appends_framing_unit marshalText { NewElasticseachBatcher with pending := "old" }
     "test" "\x7b\"a\":1\x7d" "\x7b\"a\":1\x7d" 5 6 (by decide) rfl,
   by decide⟩

/-- C5. `Push` with an index that contains a double quote returns an error
that wraps `ErrIndexName`; and whenever `Push` returns an error, the batcher
(buffer, count and `lastScheduledFlushTime` included) is what it was before the
call, no flush and no timer is spawned, and the whole system, pending tasks and
records included, is left as if the call had not been made. -/
theorem Push_rejection_isolated {α : Type} (marshal : α → Except GoError String)
    (s : System) (index : String) (payload : α) (nowSize nowArm : Time) :
    ('"' ∈ index.data →
      ∃ e, (Push marshal s.b index payload nowSize nowArm).err = some e ∧
        errorsIs e ErrIndexName = true) ∧
    (∀ e, (Push marshal s.b index payload nowSize nowArm).err = some e →
      (Push marshal s.b index payload nowSize nowArm).b = s.b ∧
      (Push marshal s.b index payload nowSize nowArm).goFlush = false ∧
      (Push marshal s.b index payload nowSize nowArm).goTimer = none ∧
      step marshal s (.push index payload nowSize nowArm) = some s) := by
  constructor
  · intro hq
    refine ⟨.wrap (index ++ ": " ++ ErrIndexName.msg) ErrIndexName, ?_, ?_⟩
    · simp only [Push, appendPending_quote marshal s.b index payload hq]
    · simp [errorsIs, ErrIndexName]
  · intro e he
    have hp := Push_err marshal s.b index payload nowSize nowArm e he
    refine ⟨by rw [hp], by rw [hp], by rw [hp], ?_⟩
    simp only [step, hp]
    simp

/-- C5 at an index with a double quote, on a batcher that holds one record
already: the call returns the error wrapping `ErrIndexName` and the record
stays alone in the buffer. -/
theorem Push_rejection_isolated_witness :
    ('"' ∈ "a\"b".data ∧
      (Push marshalText (Push marshalText (newSystem 3 true).b "idx" "R1" 0 1).b
        "a\"b" "R2" 2 3).err = some (.wrap "a\"b: invalid index name" ErrIndexName)) ∧
    (('"' ∈ "a\"b".data →
      ∃ e, (Push marshalText (Push marshalText (newSystem 3 true).b "idx" "R1" 0 1).b
          "a\"b" "R2" 2 3).err = some e ∧ errorsIs e ErrIndexName = true) ∧
     (∀ e, (Push marshalText (Push marshalText (newSystem 3 true).b "idx" "R1" 0 1).b
          "a\"b" "R2" 2 3).err = some e →
      (Push marshalText (Push marshalText (newSystem 3 true).b "idx" "R1" 0 1).b
          "a\"b" "R2" 2 3).b = (Push marshalText (newSystem 3 true).b "idx" "R1" 0 1).b ∧
      (Push marshalText (Push marshalText (newSystem 3 true).b "idx" "R1" 0 1).b
          "a\"b" "R2" 2 3).goFlush = false ∧
      (Push marshalText (Push marshalText (newSystem 3 true).b "idx" "R1" 0 1).b
          "a\"b" "R2" 2 3).goTimer = none ∧
      step marshalText { newSystem 3 true with
          b := (Push marshalText (newSystem 3 true).b "idx" "R1" 0 1).b }
        (.push "a\"b" "R2" 2 3) =
        some { newSystem 3 true with
          b := (Push marshalText (newSystem 3 true).b "idx" "R1" 0 1).b })) :=
  ⟨⟨by decide, by decide⟩,
   Push_rejection_isolated marshalText
     { newSystem 3 true with b := (Push marshalText (newSystem 3 true).b "idx" "R1" 0 1).b }
     "a\"b" "R2" 2 3⟩

/-! ## Framing and the index check -/

theorem terminatedLinesAux_line (l : List Char) (hl : '\n' ∉ l) (cur rest : List Char) :
    terminatedLinesAux cur (l ++ '\n' :: rest) =
      (terminatedLinesAux [] rest).map
        (fun ls => String.mk (cur.reverse ++ l) :: ls) := by
  induction l generalizing cur with
  | nil => simp [terminatedLinesAux]
  | cons c cs ih =>
    have hc : c ≠ '\n' := fun h => hl (by simp [h])
    have hcs : '\n' ∉ cs := fun h => hl (by simp [h])
    simp [terminatedLinesAux, hc, ih hcs]

/-- When neither the index nor the body holds a newline, a framing unit is two
newline-terminated lines: the header line and the body. -/
theorem terminatedLines_framingUnit (index body : String)
    (hi : '\n' ∉ index.data) (hb : '\n' ∉ body.data) :
    terminatedLines (framingUnit index body) = some [headerLine index, body] := by
  have hh : '\n' ∉ (headerLine index).data := by
    simp [headerLine, String.data_append, hi]
  have h1 : (framingUnit index body).data =
      (headerLine index).data ++ '\n' :: (body.data ++ '\n' :: []) := by
    simp [framingUnit, String.data_append]
  rw [terminatedLines, h1, terminatedLinesAux_line _ hh, terminatedLinesAux_line _ hb]
  simp [terminatedLinesAux]

/-- C8, the code at the failing input. `Push` accepts the index `a`, newline,
`b` (it holds no double quote) with the body `{}`, which holds no newline; the
unit it appends is three newline-terminated lines, none of which is the header
line for that index, instead of the header line followed by the body. -/
theorem Push_accepts_newline_index :
    '\n' ∉ "\x7b\x7d".data ∧
    (Push marshalText NewElasticseachBatcher "a\nb" "\x7b\x7d" 0 1).err = none ∧
    (Push marshalText NewElasticseachBatcher "a\nb" "\x7b\x7d" 0 1).b.pending =
      framingUnit "a\nb" "\x7b\x7d" ∧
    terminatedLines (Push marshalText NewElasticseachBatcher "a\nb" "\x7b\x7d" 0 1).b.pending =
      some ["\x7b\"create\":\x7b\"_index\":\"a", "b\"\x7d\x7d", "\x7b\x7d"] ∧
    terminatedLines (Push marshalText NewElasticseachBatcher "a\nb" "\x7b\x7d" 0 1).b.pending ≠
      some [headerLine "a\nb", "\x7b\x7d"] := by
  decide

/-! ## The mutex and the callback -/

/-- C9, the code at the failing input. A flush of a batcher that holds one
record and has a callback takes the mutex, detaches the batch, calls the
callback with it and only then runs the deferred unlock: the callback is not
called after the mutex has been released. -/
theorem flush_callback_not_after_unlock :
    (flushTrace { NewElasticseachBatcher with
        callback := true, pending := "x\n", pendingCount := 1 }).1 =
      [.lock, .detach, .callback "x\n", .unlock] ∧
    callbackAfterUnlock false (flushTrace { NewElasticseachBatcher with
        callback := true, pending := "x\n", pendingCount := 1 }).1 = false := by
  decide

/-! ## Steps of the system -/

theorem concatAll_append (xs ys : List String) :
    concatAll (xs ++ ys) = concatAll xs ++ concatAll ys := by
  induction xs with
  | nil => simp [concatAll]
  | cons x xs ih => simp [concatAll, ih, String.append_assoc]

theorem concatAll_singleton (x : String) : concatAll [x] = x := by
  simp [concatAll]

/-- The method `flush` without its trace. -/
theorem flush_eq (b : ElasticsearchBatcher) :
    flush b =
      if b.pendingCount = 0 then (b, [])
      else ({ b with pendingCount := 0, pending := "" },
            if b.callback then [b.pending] else []) := by
  unfold flush flushTrace
  by_cases h : b.pendingCount = 0
  · simp [h, callbackPayloads]
  · cases hc : b.callback <;> simp [h, callbackPayloads]

/-- A push step whose call of `Push` returns an error leaves the system as it
is. -/
theorem step_push_err {α : Type} (marshal : α → Except GoError String)
    (s : System) (index : String) (payload : α) (nowSize nowArm : Time) (e : GoError)
    (h : (Push marshal s.b index payload nowSize nowArm).err = some e) :
    step marshal s (.push index payload nowSize nowArm) = some s := by
  have hp := Push_err marshal s.b index payload nowSize nowArm e h
  simp only [step, hp]
  simp

/-- A push step whose call of `Push` is accepted, spelled out. -/
theorem step_push_ok {α : Type} (marshal : α → Except GoError String)
    (s : System) (index : String) (payload : α) (body : String) (nowSize nowArm : Time)
    (hq : '"' ∉ index.data) (hm : marshal payload = .ok body) :
    step marshal s (.push index payload nowSize nowArm) =
      some { s with
        b := (Push marshal s.b index payload nowSize nowArm).b
        flushTasks :=
          if s.b.pendingCount + 1 = s.b.batchSize then s.flushTasks + 1 else s.flushTasks
        timers :=
          if s.b.pendingCount + 1 = 1 then s.timers ++ [{ ts := nowArm, batch := s.drained, tested := false }]
          else s.timers
        accepted := s.accepted ++ [framingUnit index body]
        readings :=
          s.readings ++ (if s.b.pendingCount + 1 = s.b.batchSize then [nowSize] else []) ++
            (if s.b.pendingCount + 1 = 1 then [nowArm] else []) } := by
  have hp := Push_ok marshal s.b index payload body nowSize nowArm hq hm
  simp only [step, hp, hm]
  by_cases h1 : s.b.pendingCount + 1 = s.b.batchSize
  · by_cases h2 : s.b.pendingCount + 1 = 1
    · simp only [decide_eq_true h1, if_true, if_pos h2, if_pos h1]
    · simp only [decide_eq_true h1, if_true, if_neg h2, if_pos h1]
  · by_cases h2 : s.b.pendingCount + 1 = 1
    · simp only [decide_eq_false h1, if_false, if_pos h2, if_neg h1, Bool.false_eq_true]
    · simp only [decide_eq_false h1, if_false, if_neg h2, if_neg h1, Bool.false_eq_true]

/-- What a push step can do: leave the system as it is (the call returned an
error), or append the framing unit of an index without double quote and a body
the payload marshals to. -/
theorem step_push_cases {α : Type} (marshal : α → Except GoError String)
    (s : System) (index : String) (payload : α) (nowSize nowArm : Time) (s1 : System)
    (hs : step marshal s (.push index payload nowSize nowArm) = some s1) :
    s1 = s ∨
    ∃ body, '"' ∉ index.data ∧ marshal payload = .ok body ∧
      s1 = s.pushed (framingUnit index body) nowSize nowArm := by
  by_cases hq : '"' ∈ index.data
  · left
    have he : (Push marshal s.b index payload nowSize nowArm).err =
        some (.wrap (index ++ ": " ++ ErrIndexName.msg) ErrIndexName) := by
      simp only [Push, appendPending_quote marshal s.b index payload hq]
    rw [step_push_err marshal s index payload nowSize nowArm _ he] at hs
    exact (Option.some.inj hs).symm
  · cases hm : marshal payload with
    | error e =>
      left
      have he : (Push marshal s.b index payload nowSize nowArm).err = some e := by
        simp only [Push, appendPending_marshal_error marshal s.b index payload e hq hm]
      rw [step_push_err marshal s index payload nowSize nowArm _ he] at hs
      exact (Option.some.inj hs).symm
    | ok body =>
      right
      refine ⟨body, hq, rfl, ?_⟩
      rw [step_push_ok marshal s index payload body nowSize nowArm hq hm,
        Push_ok marshal s.b index payload body nowSize nowArm hq hm] at hs
      exact (Option.some.inj hs).symm

/-- What a flush-task step can do: there is a task; on a zero count only the
task goes away, otherwise the batch is detached and handed to the callback. -/
theorem step_flushTask_cases {α : Type} (marshal : α → Except GoError String)
    (s s1 : System) (hs : step marshal s (.flushTask : Action α) = some s1) :
    s.flushTasks ≠ 0 ∧
    ((s.b.pendingCount = 0 ∧ s1 = { s with flushTasks := s.flushTasks - 1 }) ∨
     (s.b.pendingCount ≠ 0 ∧
      s1 = { s with
        b := s.b.detached
        flushTasks := s.flushTasks - 1
        delivered := s.delivered ++ (if s.b.callback then [s.b.pending] else [])
        drained := s.drained + 1 })) := by
  simp only [step] at hs
  by_cases h0 : s.flushTasks = 0
  · simp [h0] at hs
  · refine ⟨h0, ?_⟩
    simp only [if_neg h0, Option.some.injEq, flush_eq] at hs
    by_cases hz : s.b.pendingCount = 0
    · left
      simp only [if_pos hz, List.append_nil, drainedAfter, if_true] at hs
      exact ⟨hz, hs.symm⟩
    · right
      have hne : ¬ (0 : Int) = s.b.pendingCount := fun h => hz h.symm
      simp only [if_neg hz, drainedAfter, if_neg hne] at hs
      exact ⟨hz, hs.symm⟩

/-- What the test of a timer can do: the timer exists and is asleep; when its
timestamp equals `lastScheduledFlushTime` it is marked as tested, otherwise it
ends. Nothing else changes. -/
theorem step_timerTest_cases {α : Type} (marshal : α → Except GoError String)
    (s s1 : System) (i : Nat) (hs : step marshal s (.timerTest i : Action α) = some s1) :
    ∃ t, s.timers[i]? = some t ∧ t.tested = false ∧
    ((t.ts = s.b.lastScheduledFlushTime ∧
        s1 = { s with timers := s.timers.set i { t with tested := true } }) ∨
     (t.ts ≠ s.b.lastScheduledFlushTime ∧
        s1 = { s with timers := s.timers.eraseIdx i })) := by
  simp only [step] at hs
  cases ht : s.timers[i]? with
  | none => simp [ht] at hs
  | some t =>
    simp only [ht] at hs
    cases htt : t.tested with
    | true => simp [htt] at hs
    | false =>
      refine ⟨t, rfl, htt, ?_⟩
      simp only [htt, Bool.false_eq_true, if_false] at hs
      by_cases hts : t.ts = s.b.lastScheduledFlushTime
      · left
        simp only [if_pos hts, Option.some.injEq] at hs
        exact ⟨hts, hs.symm⟩
      · right
        simp only [if_neg hts, Option.some.injEq] at hs
        exact ⟨hts, hs.symm⟩

/-- What the call of `flush` by a timer can do: the timer exists, has passed
its test, and ends; on a zero count nothing else changes, otherwise the batch
is detached and handed to the callback. -/
theorem step_timerFlush_cases {α : Type} (marshal : α → Except GoError String)
    (s s1 : System) (i : Nat) (hs : step marshal s (.timerFlush i : Action α) = some s1) :
    ∃ t, s.timers[i]? = some t ∧ t.tested = true ∧
    ((s.b.pendingCount = 0 ∧ s1 = { s with timers := s.timers.eraseIdx i }) ∨
     (s.b.pendingCount ≠ 0 ∧
      s1 = { s with
        b := s.b.detached
        timers := s.timers.eraseIdx i
        delivered := s.delivered ++ (if s.b.callback then [s.b.pending] else [])
        drained := s.drained + 1 })) := by
  simp only [step] at hs
  cases ht : s.timers[i]? with
  | none => simp [ht] at hs
  | some t =>
    simp only [ht] at hs
    cases htt : t.tested with
    | false => simp [htt] at hs
    | true =>
      refine ⟨t, rfl, htt, ?_⟩
      simp only [htt, if_true, Option.some.injEq, flush_eq] at hs
      by_cases hz : s.b.pendingCount = 0
      · left
        simp only [if_pos hz, List.append_nil, drainedAfter, if_true] at hs
        exact ⟨hz, hs.symm⟩
      · right
        have hne : ¬ (0 : Int) = s.b.pendingCount := fun h => hz h.symm
        simp only [if_neg hz, drainedAfter, if_neg hne] at hs
        exact ⟨hz, hs.symm⟩

/-- A property that holds at the start and is kept by every step holds after
every run. -/
theorem run_invariant {α : Type} (marshal : α → Except GoError String)
    (P : System → Prop)
    (hstep : ∀ s a s1, P s → step marshal s a = some s1 → P s1)
    (acts : List (Action α)) :
    ∀ s0 s, P s0 → run marshal s0 acts = some s → P s := by
  induction acts with
  | nil =>
    intro s0 s h0 hr
    simp only [run, Option.some.injEq] at hr
    exact hr ▸ h0
  | cons a as ih =>
    intro s0 s h0 hr
    simp only [run] at hr
    cases h1 : step marshal s0 a with
    | none => simp [h1] at hr
    | some s1 =>
      rw [h1] at hr
      exact ih s1 s (hstep s0 a s1 h0 h1) hr

theorem run_append {α : Type} (marshal : α → Except GoError String)
    (xs ys : List (Action α)) (s : System) :
    run marshal s (xs ++ ys) = (run marshal s xs).bind (fun s1 => run marshal s1 ys) := by
  induction xs generalizing s with
  | nil => simp [run]
  | cons a as ih =>
    simp only [List.cons_append, run]
    cases step marshal s a with
    | none => simp
    | some s1 => simp [ih]

/-! ## Delivery integrity -/

theorem Integrity_step {α : Type} (marshal : α → Except GoError String)
    (s : System) (a : Action α) (s1 : System)
    (h : Integrity s) (hs : step marshal s a = some s1) : Integrity s1 := by
  obtain ⟨hc, hi⟩ := h
  cases a with
  | push index payload nowSize nowArm =>
    rcases step_push_cases marshal s index payload nowSize nowArm s1 hs with
      rfl | ⟨body, _, _, rfl⟩
    · exact ⟨hc, hi⟩
    · refine ⟨hc, ?_⟩
      simp only [System.pushed, ElasticsearchBatcher.pushed, concatAll_append,
        concatAll_singleton]
      rw [← hi, String.append_assoc]
  | flushTask =>
    rcases (step_flushTask_cases marshal s s1 hs).2 with ⟨_, rfl⟩ | ⟨_, rfl⟩
    · exact ⟨hc, hi⟩
    · refine ⟨hc, ?_⟩
      simp only [ElasticsearchBatcher.detached, hc, if_true, concatAll_append,
        concatAll_singleton, String.append_empty]
      exact hi
  | timerTest i =>
    obtain ⟨t, _, _, h1 | h1⟩ := step_timerTest_cases marshal s s1 i hs
    · obtain ⟨_, rfl⟩ := h1
      exact ⟨hc, hi⟩
    · obtain ⟨_, rfl⟩ := h1
      exact ⟨hc, hi⟩
  | timerFlush i =>
    obtain ⟨t, _, _, h1 | h1⟩ := step_timerFlush_cases marshal s s1 i hs
    · obtain ⟨_, rfl⟩ := h1
      exact ⟨hc, hi⟩
    · obtain ⟨_, rfl⟩ := h1
      refine ⟨hc, ?_⟩
      simp only [ElasticsearchBatcher.detached, hc, if_true, concatAll_append,
        concatAll_singleton, String.append_empty]
      exact hi

/-- C2. After every finite run of push, flush-task and timer steps (the test
of a waking timer and its call of `flush` taken apart) from a fresh batcher with a callback, the payloads handed to the callback so
far, concatenated in call order and followed by the pending buffer, are the
framing units of the accepted pushes concatenated in push order. -/
theorem delivery_integrity {α : Type} (marshal : α → Except GoError String)
    (batchSize : Int) (acts : List (Action α)) (s : System)
    (h : run marshal (newSystem batchSize true) acts = some s) :
    concatAll s.delivered ++ s.b.pending = concatAll s.accepted :=
  (run_invariant marshal Integrity (Integrity_step marshal) acts
    (newSystem batchSize true) s ⟨rfl, rfl⟩ h).2

/-! ## The size bound -/

theorem Bounded_step {α : Type} (marshal : α → Except GoError String) (n : Int) (hn : 1 ≤ n)
    (s : System) (a : Action α) (s1 : System)
    (h : Bounded n s) (hs : step marshal s a = some s1) : Bounded n s1 := by
  obtain ⟨hb, h0, hlt⟩ := h
  cases a with
  | push index payload nowSize nowArm =>
    rcases step_push_cases marshal s index payload nowSize nowArm s1 hs with
      rfl | ⟨body, _, _, rfl⟩
    · exact ⟨hb, h0, hlt⟩
    · refine ⟨hb, ?_, ?_⟩
      · simp only [System.pushed, ElasticsearchBatcher.pushed]
        omega
      · simp only [System.pushed, ElasticsearchBatcher.pushed]
        by_cases h1 : s.b.pendingCount + 1 = s.b.batchSize
        · simp only [if_pos h1]
          omega
        · simp only [if_neg h1]
          intro hf
          have := hlt hf
          omega
  | flushTask =>
    obtain ⟨hne, h1 | h1⟩ := step_flushTask_cases marshal s s1 hs
    · obtain ⟨hz, rfl⟩ := h1
      refine ⟨hb, h0, fun _ => ?_⟩
      simp only
      omega
    · obtain ⟨_, rfl⟩ := h1
      refine ⟨hb, ?_, fun _ => ?_⟩ <;> simp only [ElasticsearchBatcher.detached] <;> omega
  | timerTest i =>
    obtain ⟨t, _, _, h1 | h1⟩ := step_timerTest_cases marshal s s1 i hs
    · obtain ⟨_, rfl⟩ := h1
      exact ⟨hb, h0, hlt⟩
    · obtain ⟨_, rfl⟩ := h1
      exact ⟨hb, h0, hlt⟩
  | timerFlush i =>
    obtain ⟨t, _, _, h1 | h1⟩ := step_timerFlush_cases marshal s s1 i hs
    · obtain ⟨_, rfl⟩ := h1
      exact ⟨hb, h0, hlt⟩
    · obtain ⟨_, rfl⟩ := h1
      refine ⟨hb, ?_, fun _ => ?_⟩ <;> simp only [ElasticsearchBatcher.detached] <;> omega

/-! ## No stranded record -/

theorem mem_eraseIdx_of_ne {β : Type} (l : List β) (i : Nat) (t u : β)
    (ht : l[i]? = some t) (hu : u ∈ l) (hne : u ≠ t) : u ∈ l.eraseIdx i := by
  rw [List.mem_eraseIdx_iff_getElem?]
  obtain ⟨j, hj⟩ := List.mem_iff_getElem?.mp hu
  refine ⟨j, ?_, hj⟩
  intro hji
  subst hji
  rw [hj] at ht
  exact hne (Option.some.inj ht)

theorem Covered_step {α : Type} (marshal : α → Except GoError String)
    (s : System) (a : Action α) (s1 : System)
    (h : Covered s) (hs : step marshal s a = some s1) : Covered s1 := by
  cases a with
  | push index payload nowSize nowArm =>
    rcases step_push_cases marshal s index payload nowSize nowArm s1 hs with
      rfl | ⟨body, _, _, rfl⟩
    · exact h
    · intro hpos
      simp only [System.pushed, ElasticsearchBatcher.pushed] at hpos ⊢
      by_cases h1 : s.b.pendingCount + 1 = 1
      · right
        simp only [if_pos h1]
        exact ⟨{ ts := nowArm, batch := s.drained, tested := false }, by simp, rfl⟩
      · simp only [if_neg h1]
        by_cases h2 : s.b.pendingCount + 1 = s.b.batchSize
        · left
          simp only [if_pos h2]
          omega
        · simp only [if_neg h2]
          exact h (by omega)
  | flushTask =>
    obtain ⟨hne, h1 | h1⟩ := step_flushTask_cases marshal s s1 hs
    · obtain ⟨hz, rfl⟩ := h1
      intro hpos
      simp only at hpos
      omega
    · obtain ⟨_, rfl⟩ := h1
      intro hpos
      simp [ElasticsearchBatcher.detached] at hpos
  | timerTest i =>
    obtain ⟨t, ht, _, h1 | h1⟩ := step_timerTest_cases marshal s s1 i hs
    · obtain ⟨hts, rfl⟩ := h1
      intro _
      right
      have hi : i < s.timers.length := (List.getElem?_eq_some_iff.mp ht).1
      exact ⟨{ t with tested := true },
        List.mem_iff_getElem?.mpr ⟨i, List.getElem?_set_self hi⟩, hts⟩
    · obtain ⟨hst, rfl⟩ := h1
      intro hpos
      simp only at hpos ⊢
      rcases h hpos with hf | ⟨u, hu, hul⟩
      · exact Or.inl hf
      · right
        refine ⟨u, mem_eraseIdx_of_ne s.timers i t u ht hu ?_, hul⟩
        intro hut
        exact hst (hut ▸ hul)
  | timerFlush i =>
    obtain ⟨t, _, _, h1 | h1⟩ := step_timerFlush_cases marshal s s1 i hs
    · obtain ⟨hz, rfl⟩ := h1
      intro hpos
      simp only at hpos
      omega
    · obtain ⟨_, rfl⟩ := h1
      intro hpos
      simp [ElasticsearchBatcher.detached] at hpos

/-! ## Runs of accepted pushes -/

theorem step_push_valid {α : Type} (marshal : α → Except GoError String)
    (s : System) (r : Record α) (hv : r.valid marshal = true) :
    step marshal s r.action = some (s.pushed (r.unit marshal) r.nowSize r.nowArm) := by
  cases hm : marshal r.payload with
  | error e => simp [Record.valid, hm, Except.toBool] at hv
  | ok body =>
    have hq : '"' ∉ r.index.data := by
      simp only [Record.valid, Bool.and_eq_true, decide_eq_true_eq] at hv
      exact hv.1
    rw [Record.action, step_push_ok marshal s r.index r.payload body r.nowSize r.nowArm hq hm,
      Push_ok marshal s.b r.index r.payload body r.nowSize r.nowArm hq hm]
    simp only [Record.unit, hm]
    rfl

theorem step_flushTask_drain {α : Type} (marshal : α → Except GoError String)
    (s : System) (hf : s.flushTasks ≠ 0) (hz : s.b.pendingCount ≠ 0) :
    step marshal s (.flushTask : Action α) =
      some { s with
        b := s.b.detached
        flushTasks := s.flushTasks - 1
        delivered := s.delivered ++ (if s.b.callback then [s.b.pending] else [])
        drained := s.drained + 1 } := by
  have hne : ¬ (0 : Int) = s.b.pendingCount := fun h => hz h.symm
  simp only [step, if_neg hf, flush_eq, if_neg hz, drainedAfter, if_neg hne]
  rfl

theorem step_timerTest_pass {α : Type} (marshal : α → Except GoError String)
    (s : System) (i : Nat) (t : Timer) (ht : s.timers[i]? = some t)
    (htt : t.tested = false) (hts : t.ts = s.b.lastScheduledFlushTime) :
    step marshal s (.timerTest i : Action α) =
      some { s with timers := s.timers.set i { t with tested := true } } := by
  simp only [step, ht, htt, Bool.false_eq_true, if_false, if_pos hts]

theorem step_timerTest_fail {α : Type} (marshal : α → Except GoError String)
    (s : System) (i : Nat) (t : Timer) (ht : s.timers[i]? = some t)
    (htt : t.tested = false) (hts : t.ts ≠ s.b.lastScheduledFlushTime) :
    step marshal s (.timerTest i : Action α) =
      some { s with timers := s.timers.eraseIdx i } := by
  simp only [step, ht, htt, Bool.false_eq_true, if_false, if_neg hts]

theorem step_timerFlush_run {α : Type} (marshal : α → Except GoError String)
    (s : System) (i : Nat) (t : Timer) (ht : s.timers[i]? = some t)
    (htt : t.tested = true) :
    step marshal s (.timerFlush i : Action α) =
      some { s with
        b := (flush s.b).1
        timers := s.timers.eraseIdx i
        delivered := s.delivered ++ (flush s.b).2
        drained := drainedAfter s.drained s.b (flush s.b).1 } := by
  simp only [step, ht, htt, if_true]

theorem eraseIdx_set_self {β : Type} (l : List β) (i : Nat) (a : β) :
    (l.set i a).eraseIdx i = l.eraseIdx i := by
  induction l generalizing i with
  | nil => simp
  | cons x xs ih =>
    cases i with
    | zero => simp
    | succ j => simp [ih]

/-- The two timer steps run back to back are the body of
`scheduleFlushInterval` after the sleep: when the test fails the timer ends
and the body returns the batcher as it is; when it passes, the test followed
at once by the timer's call of `flush` does what the body does. -/
theorem timer_steps_scheduleFlushInterval {α : Type} (marshal : α → Except GoError String)
    (s : System) (i : Nat) (t : Timer) (ht : s.timers[i]? = some t)
    (htt : t.tested = false) :
    (t.ts ≠ s.b.lastScheduledFlushTime →
      step marshal s (.timerTest i : Action α) =
          some { s with timers := s.timers.eraseIdx i } ∧
        scheduleFlushInterval s.b t.ts = (s.b, [])) ∧
    (t.ts = s.b.lastScheduledFlushTime →
      run marshal s [(.timerTest i : Action α), .timerFlush i] =
        some { s with
          b := (scheduleFlushInterval s.b t.ts).1
          timers := s.timers.eraseIdx i
          delivered := s.delivered ++ (scheduleFlushInterval s.b t.ts).2
          drained := drainedAfter s.drained s.b (scheduleFlushInterval s.b t.ts).1 }) := by
  constructor
  · intro hts
    exact ⟨step_timerTest_fail marshal s i t ht htt hts, by simp [scheduleFlushInterval, hts]⟩
  · intro hts
    have hi : i < s.timers.length := (List.getElem?_eq_some_iff.mp ht).1
    simp only [run, step_timerTest_pass marshal s i t ht htt hts, Option.some_bind,
      scheduleFlushInterval, if_pos hts]
    rw [step_timerFlush_run marshal _ i { t with tested := true }
      (List.getElem?_set_self hi) rfl]
    simp only [Option.some_bind, eraseIdx_set_self]

/-- Accepted pushes that start on a non-empty batch and stay below the batch
size only append to the buffer and raise the count. -/
theorem run_pushes_below {α : Type} (marshal : α → Except GoError String)
    (rs : List (Record α)) :
    ∀ s : System, (∀ r ∈ rs, r.valid marshal = true) → 1 ≤ s.b.pendingCount →
      s.b.pendingCount + rs.length < s.b.batchSize →
      run marshal s (rs.map Record.action) =
        some { s with
          b := { s.b with
            pending := s.b.pending ++ concatAll (rs.map (Record.unit marshal))
            pendingCount := s.b.pendingCount + rs.length }
          accepted := s.accepted ++ rs.map (Record.unit marshal) } := by
  induction rs with
  | nil =>
    intro s _ _ _
    simp [run, concatAll]
  | cons r rs ih =>
    intro s hv h1 hlt
    have hvr : r.valid marshal = true := hv r (by simp)
    have hvs : ∀ x ∈ rs, x.valid marshal = true := fun x hx => hv x (by simp [hx])
    simp only [List.length_cons, Nat.cast_add, Nat.cast_one] at hlt
    have hne1 : ¬ s.b.pendingCount + 1 = 1 := by omega
    have hneb : ¬ s.b.pendingCount + 1 = s.b.batchSize := by omega
    simp only [List.map_cons, run, step_push_valid marshal s r hvr, Option.some_bind]
    rw [ih (s.pushed (r.unit marshal) r.nowSize r.nowArm) hvs
      (by simp only [System.pushed, ElasticsearchBatcher.pushed]; omega)
      (by simp only [System.pushed, ElasticsearchBatcher.pushed]; omega)]
    simp only [System.pushed, ElasticsearchBatcher.pushed, if_neg hne1, if_neg hneb,
      List.append_nil, concatAll, String.append_assoc, List.append_assoc, List.singleton_append,
      List.length_cons, Nat.cast_add, Nat.cast_one, Int.add_assoc, Int.add_comm 1]

/-- Pushing fewer accepted records than the batch size to a fresh batcher. -/
theorem run_pushes_fresh {α : Type} (marshal : α → Except GoError String)
    (n : Int) (cb : Bool) (rs : List (Record α))
    (hv : ∀ r ∈ rs, r.valid marshal = true) (hlt : (rs.length : Int) < n) :
    run marshal (newSystem n cb) (rs.map Record.action) =
      some (afterPushes marshal n cb rs) := by
  cases rs with
  | nil => rfl
  | cons r rs =>
    have hvr : r.valid marshal = true := hv r (by simp)
    have hvs : ∀ x ∈ rs, x.valid marshal = true := fun x hx => hv x (by simp [hx])
    simp only [List.length_cons, Nat.cast_add, Nat.cast_one] at hlt
    have hneb : ¬ (0 : Int) + 1 = n := by omega
    have hneb1 : ¬ (1 : Int) = n := by omega
    simp only [List.map_cons, run, step_push_valid marshal _ r hvr, Option.some_bind]
    rw [run_pushes_below marshal rs _ hvs
      (by simp [System.pushed, ElasticsearchBatcher.pushed, newSystem, NewElasticseachBatcher])
      (by simp only [System.pushed, ElasticsearchBatcher.pushed, newSystem,
            NewElasticseachBatcher]; omega)]
    simp only [System.pushed, ElasticsearchBatcher.pushed, newSystem, NewElasticseachBatcher,
      afterPushes, if_neg hneb, if_neg hneb1, concatAll, List.map_cons, List.length_cons, Nat.cast_add,
      Nat.cast_one, List.append_nil, List.nil_append, String.empty_append, List.singleton_append,
      Int.zero_add, if_true, Int.add_comm 1]

/-! ## The claims about runs -/

theorem scenarioRun_state :
    run marshalText (newSystem 3 true) scenarioRun = some scenarioState := by
  decide

/-- C2 on `scenarioRun`: the delivered batch followed by the pending unit of
`R4` is the concatenation of the four accepted units; the rejected push left
no trace. -/
theorem delivery_integrity_witness :
    run marshalText (newSystem 3 true) scenarioRun = some scenarioState ∧
    concatAll scenarioState.delivered ++ scenarioState.b.pending =
      concatAll scenarioState.accepted :=
  ⟨scenarioRun_state,
   delivery_integrity marshalText 3 scenarioRun scenarioState scenarioRun_state⟩

/-- C3. For every batch size `n ≥ 1` and every list of `n` accepted records
pushed to a fresh batcher with a callback and no other step in between: after
any shorter prefix no flush task is pending and nothing has been delivered;
after all `n` exactly one flush task is pending and nothing has been delivered
yet; and when that task runs the callback gets one payload, the `n` framing
units in push order, and count and buffer are empty again. -/
theorem size_trigger {α : Type} (marshal : α → Except GoError String)
    (n : Int) (rs : List (Record α))
    (hv : ∀ r ∈ rs, r.valid marshal = true) (hn : 1 ≤ n) (hlen : (rs.length : Int) = n) :
    (∀ m, m < rs.length →
      ∃ sm, run marshal (newSystem n true) ((rs.take m).map Record.action) = some sm ∧
        sm.flushTasks = 0 ∧ sm.delivered = []) ∧
    ∃ s, run marshal (newSystem n true) (rs.map Record.action) = some s ∧
      s.flushTasks = 1 ∧ s.delivered = [] ∧
      ∃ s1, step marshal s (.flushTask : Action α) = some s1 ∧
        s1.delivered = [concatAll (rs.map (Record.unit marshal))] ∧
        s1.b.pendingCount = 0 ∧ s1.b.pending = "" ∧ s1.flushTasks = 0 := by
  constructor
  · intro m hm
    refine ⟨afterPushes marshal n true (rs.take m), ?_, rfl, rfl⟩
    apply run_pushes_fresh
    · exact fun r hr => hv r (List.mem_of_mem_take hr)
    · rw [List.length_take]
      omega
  · rcases List.eq_nil_or_concat rs with rfl | ⟨init, l, hrs⟩
    · simp at hlen
      omega
    · rw [List.concat_eq_append] at hrs
      subst hrs
      have hvi : ∀ r ∈ init, r.valid marshal = true := fun r hr => hv r (by simp [hr])
      have hvl : l.valid marshal = true := hv l (by simp)
      simp only [List.length_append, List.length_singleton, Nat.cast_add, Nat.cast_one] at hlen
      have hrun : run marshal (newSystem n true) ((init ++ [l]).map Record.action) =
          some ((afterPushes marshal n true init).pushed (l.unit marshal) l.nowSize l.nowArm) := by
        rw [List.map_append, run_append,
          run_pushes_fresh marshal n true init hvi (by omega)]
        simp only [List.map_cons, List.map_nil, run, Option.some_bind,
          step_push_valid marshal _ l hvl]
      have hcount : (afterPushes marshal n true init).b.pendingCount + 1 =
          (afterPushes marshal n true init).b.batchSize := hlen
      refine ⟨_, hrun, ?_, rfl, ?_⟩
      · simp only [System.pushed, if_pos hcount]
        rfl
      · refine ⟨_, step_flushTask_drain marshal _ ?_ ?_, ?_, rfl, rfl, ?_⟩
        · simp only [System.pushed, if_pos hcount]
          simp [afterPushes]
        · simp only [System.pushed, ElasticsearchBatcher.pushed, afterPushes]
          omega
        · simp only [System.pushed, ElasticsearchBatcher.pushed, afterPushes, if_true,
            List.nil_append, List.map_append, List.map_cons, List.map_nil, concatAll_append,
            concatAll_singleton]
        · simp only [System.pushed, if_pos hcount]
          rfl

/-- C3 on the scenario: batch size three, `R1` and `R2` spawn no flush, `R3`
spawns one, and it delivers the three units in push order. -/
theorem size_trigger_witness :
    ((∀ r ∈ scenarioRecords, r.valid marshalText = true) ∧ (1 : Int) ≤ 3 ∧
      (scenarioRecords.length : Int) = 3) ∧
    ∃ s, run marshalText (newSystem 3 true) (scenarioRecords.map Record.action) = some s ∧
      s.flushTasks = 1 ∧ s.delivered = [] ∧
      ∃ s1, step marshalText s (.flushTask : Action String) = some s1 ∧
        s1.delivered = [concatAll (scenarioRecords.map (Record.unit marshalText))] ∧
        s1.b.pendingCount = 0 ∧ s1.b.pending = "" ∧ s1.flushTasks = 0 :=
  ⟨⟨by decide, by decide, by decide⟩,
   (size_trigger marshalText 3 scenarioRecords (by decide) (by decide) (by decide)).2⟩

/-- C4. For every batch size `n` and every non-empty list of fewer than `n`
accepted records pushed to a fresh batcher with a callback: exactly one timer
is asleep, armed by the first push with the reading that is now
`lastScheduledFlushTime`; no flush task is pending and nothing has been
delivered, after any prefix as well; and when the timer wakes, its test passes
and its call of `flush` hands the callback one payload, the framing units in
push order, and leaves count and buffer empty, with no timer and no flush task
left. -/
theorem time_trigger {α : Type} (marshal : α → Except GoError String)
    (n : Int) (r : Record α) (rs : List (Record α))
    (hv : ∀ x ∈ r :: rs, x.valid marshal = true) (hk : ((r :: rs).length : Int) < n) :
    ∃ s, run marshal (newSystem n true) ((r :: rs).map Record.action) = some s ∧
      s.timers = [{ ts := r.nowArm, batch := 0, tested := false }] ∧
      s.b.lastScheduledFlushTime = r.nowArm ∧
      s.flushTasks = 0 ∧ s.delivered = [] ∧
      (∀ m, ∃ sm,
        run marshal (newSystem n true) (((r :: rs).take m).map Record.action) = some sm ∧
          sm.flushTasks = 0 ∧ sm.delivered = []) ∧
      step marshal s (.timerTest 0 : Action α) =
        some { s with timers := [{ ts := r.nowArm, batch := 0, tested := true }] } ∧
      ∃ s1, run marshal s [(.timerTest 0 : Action α), .timerFlush 0] = some s1 ∧
        s1.delivered = [concatAll ((r :: rs).map (Record.unit marshal))] ∧
        s1.b.pendingCount = 0 ∧ s1.b.pending = "" ∧ s1.timers = [] ∧ s1.flushTasks = 0 := by
  have htest : step marshal (afterPushes marshal n true (r :: rs)) (.timerTest 0 : Action α) =
      some { afterPushes marshal n true (r :: rs) with
        timers := [{ ts := r.nowArm, batch := 0, tested := true }] } :=
    step_timerTest_pass marshal _ 0 { ts := r.nowArm, batch := 0, tested := false } rfl rfl rfl
  have hz : (afterPushes marshal n true (r :: rs)).b.pendingCount ≠ 0 := by
    simp only [afterPushes, List.length_cons]
    omega
  refine ⟨afterPushes marshal n true (r :: rs), run_pushes_fresh marshal n true _ hv hk,
    rfl, rfl, rfl, rfl, ?_, htest, ?_⟩
  · intro m
    refine ⟨afterPushes marshal n true ((r :: rs).take m), ?_, rfl, rfl⟩
    apply run_pushes_fresh
    · exact fun x hx => hv x (List.mem_of_mem_take hx)
    · rw [List.length_take]
      omega
  · simp only [run, htest, Option.some_bind]
    rw [step_timerFlush_run marshal
      { afterPushes marshal n true (r :: rs) with
        timers := [{ ts := r.nowArm, batch := 0, tested := true }] }
      0 { ts := r.nowArm, batch := 0, tested := true } rfl rfl]
    simp only [Option.some_bind, flush_eq, if_neg hz]
    exact ⟨_, rfl, rfl, rfl, rfl, rfl, rfl⟩

/-- C4 on the records of the repository test under the default batch size
1000: the timer armed by the first push delivers all of them. -/
theorem time_trigger_witness :
    ((∀ x ∈ testFirst :: testRest, x.valid marshalText = true) ∧
      (((testFirst :: testRest).length : Int) < defaultBatchSize)) ∧
    ∃ s, run marshalText (newSystem defaultBatchSize true)
        ((testFirst :: testRest).map Record.action) = some s ∧
      s.timers = [{ ts := testFirst.nowArm, batch := 0, tested := false }] ∧
      s.b.lastScheduledFlushTime = testFirst.nowArm ∧
      s.flushTasks = 0 ∧ s.delivered = [] ∧
      (∀ m, ∃ sm,
        run marshalText (newSystem defaultBatchSize true)
          (((testFirst :: testRest).take m).map Record.action) = some sm ∧
          sm.flushTasks = 0 ∧ sm.delivered = []) ∧
      step marshalText s (.timerTest 0 : Action String) =
        some { s with timers := [{ ts := testFirst.nowArm, batch := 0, tested := true }] } ∧
      ∃ s1, run marshalText s [(.timerTest 0 : Action String), .timerFlush 0] = some s1 ∧
        s1.delivered = [concatAll ((testFirst :: testRest).map (Record.unit marshalText))] ∧
        s1.b.pendingCount = 0 ∧ s1.b.pending = "" ∧ s1.timers = [] ∧ s1.flushTasks = 0 :=
  ⟨⟨by decide, by decide⟩,
   time_trigger marshalText defaultBatchSize testFirst testRest (by decide) (by decide)⟩

/-- C6, the code at the failing input. Batch size one, pairwise distinct
clock readings. The push of `R1` spawns the flush task and arms a timer with
reading 1; the flush task drains the batch, so the timer's batch has been
flushed by the size trigger while the timer is still asleep. The timer then
wakes and passes its test, because reading 1 is still
`lastScheduledFlushTime`. Before it takes the mutex a push of `R2` starts the
next batch, and the timer's call of `flush` hands `R2` to the callback. -/
theorem stale_timer_flushes_newer_batch :
    (run marshalText (newSystem 1 true) [.push "idx" "R1" 0 1, .flushTask]).map
        (fun s => (s.timers, s.drained, s.delivered, s.b.pendingCount)) =
      some ([{ ts := 1, batch := 0, tested := false }], 1, [framingUnit "idx" "R1"], 0) ∧
    (run marshalText (newSystem 1 true)
        [.push "idx" "R1" 0 1, .flushTask, .timerTest 0, .push "idx" "R2" 2 3]).map
        (fun s => (s.timers, s.b.pending, s.b.lastScheduledFlushTime)) =
      some ([{ ts := 1, batch := 0, tested := true }, { ts := 3, batch := 1, tested := false }],
        framingUnit "idx" "R2", 3) ∧
    (run marshalText (newSystem 1 true)
        [.push "idx" "R1" 0 1, .flushTask, .timerTest 0, .push "idx" "R2" 2 3,
         .timerFlush 0]).map
        (fun s => (s.delivered, s.b.pending, s.b.pendingCount, s.readings)) =
      some ([framingUnit "idx" "R1", framingUnit "idx" "R2"], "", 0, [0, 1, 2, 3]) ∧
    ([0, 1, 2, 3] : List Time).Nodup := by
  decide

/-- C7 as stated fails: with batch size one, a second push that arrives before
the spawned flush task has run brings the count to two, and the task then
hands the callback a payload of two framing units. -/
theorem pendingCount_exceeds_batchSize :
    (run marshalText (newSystem 1 true)
        [.push "idx" "R1" 0 1, .push "idx" "R2" 2 3]).map
      (fun s => (s.b.batchSize, s.b.pendingCount, s.flushTasks)) = some (1, 2, 1) ∧
    (run marshalText (newSystem 1 true)
        [.push "idx" "R1" 0 1, .push "idx" "R2" 2 3, .flushTask]).map
      (fun s => s.delivered) = some [framingUnit "idx" "R1" ++ framingUnit "idx" "R2"] := by
  decide

/-- C7, amended. For every batch size `n ≥ 1` and every run from a fresh
batcher, in a state where no flush task is pending the count is below `n`. -/
theorem pendingCount_below_batchSize {α : Type} (marshal : α → Except GoError String)
    (n : Int) (cb : Bool) (acts : List (Action α)) (s : System)
    (hn : 1 ≤ n) (hrun : run marshal (newSystem n cb) acts = some s)
    (hf : s.flushTasks = 0) :
    s.b.pendingCount < n := by
  have hb : Bounded n s :=
    run_invariant marshal (Bounded n) (Bounded_step marshal n hn) acts (newSystem n cb) s
      ⟨rfl, by simp [newSystem, NewElasticseachBatcher],
        fun _ => by simp only [newSystem, NewElasticseachBatcher]; omega⟩ hrun
  exact hb.2.2 hf

/-- C7 amended, on `scenarioRun`: no flush task is pending and the count, one,
is below the batch size three. -/
theorem pendingCount_below_batchSize_witness :
    ((1 : Int) ≤ 3 ∧ run marshalText (newSystem 3 true) scenarioRun = some scenarioState ∧
      scenarioState.flushTasks = 0) ∧
    scenarioState.b.pendingCount < 3 :=
  ⟨⟨by decide, scenarioRun_state, rfl⟩,
   pendingCount_below_batchSize marshalText 3 true scenarioRun scenarioState (by decide)
     scenarioRun_state rfl⟩

/-- C10. In every state reached from a fresh batcher by push, flush-task and
timer steps, a positive count comes with a pending flush task or with a timer
goroutine that has not called `flush` yet and was armed with the current
`lastScheduledFlushTime`. -/
theorem no_stranded_record {α : Type} (marshal : α → Except GoError String)
    (n : Int) (cb : Bool) (acts : List (Action α)) (s : System)
    (hrun : run marshal (newSystem n cb) acts = some s)
    (hpos : 0 < s.b.pendingCount) :
    0 < s.flushTasks ∨ ∃ t ∈ s.timers, t.ts = s.b.lastScheduledFlushTime := by
  have hc : Covered s :=
    run_invariant marshal Covered (Covered_step marshal) acts (newSystem n cb) s
      (fun h => by simp [newSystem, NewElasticseachBatcher] at h) hrun
  exact hc hpos

/-- C10 on `scenarioRun`: `R4` is pending, no flush task is, and the timer
armed at reading 31 is asleep with the current timestamp. -/
theorem no_stranded_record_witness :
    (run marshalText (newSystem 3 true) scenarioRun = some scenarioState ∧
      0 < scenarioState.b.pendingCount) ∧
    (0 < scenarioState.flushTasks ∨
      ∃ t ∈ scenarioState.timers, t.ts = scenarioState.b.lastScheduledFlushTime) :=
  ⟨⟨scenarioRun_state, by decide⟩,
   no_stranded_record marshalText 3 true scenarioRun scenarioState scenarioRun_state
     (by decide)⟩

end Outputs
